import Mathlib

/-! # fmt-reflect: rendering of reflectable values

A shallow embedding of `src/main.cpp`: the two example types, their
`reflection` specialisations, and the four `fmt::formatter` specialisations
(named field, Simple, Extended, and the dispatcher that parses the mode).

* The output iterator `ctx.out()` of the library appends to a buffer, so the
  sink is a `String` that every write extends at its end.
* A call either returns, or throws with whatever was written so far left in
  the sink (`Outcome`).
* The text that the fmt library gives to a `double` formatted without a
  specifier is a parameter `dtext` of every formatting function; `int` is
  written in base 10 and a string as it is.
-/

namespace FmtReflect

/-! ## Data model -/

/-- A `double`, by its IEEE 754 binary64 bit pattern. -/
structure Double where
  bits : Nat
deriving DecidableEq, Repr

/-- Embeds `struct Inner { int x; double y; std::string z; }` -/
structure Inner where
  x : Int
  y : Double
  z : String
deriving DecidableEq, Repr

/-- Embeds `struct Outer { std::string a; std::string b; Inner inner; }` -/
structure Outer where
  a : String
  b : String
  inner : Inner
deriving DecidableEq, Repr

/-- Embeds `template <typename T> struct NamedField { const std::string name; const T& value; }` -/
structure NamedField (T : Type) where
  name : String
  value : T

/-- The field types without a `reflection` specialisation that the example
types use: `int`, `double`, `std::string`. -/
inductive Primitive where
  | int (i : Int)
  | double (d : Double)
  | string (s : String)

mutual
/-- A value a formatter can be asked to write: a primitive
(`reflection<T>::available == false`) or an object of a reflectable type. -/
inductive Value where
  | primitive (p : Primitive)
  | object (o : Object)
/-- An object `t` of a type `T` with `reflection<T>::available == true`, as its
`reflection<T>` shows it: `name()`, the tuple `fields(t)` and the tuple
`values(t)`. -/
inductive Object where
  | mk (name : String) (fields : List (NamedField Value)) (values : List Value)
end

/-- Embeds `reflection<T>::available` for the type of a value. -/
def reflection.available : Value → Bool
  | .primitive _ => false
  | .object _ => true

/-- Embeds `reflection<T>::name()` -/
def reflection.name : Object → String
  | .mk name _ _ => name

/-- Embeds `reflection<T>::fields(t)` -/
def reflection.fields : Object → List (NamedField Value)
  | .mk _ fields _ => fields

/-- Embeds `reflection<T>::values(t)` -/
def reflection.values : Object → List Value
  | .mk _ _ values => values

/-- Embeds `reflection<Inner>::name()` -/
def reflection_Inner.name : String := "Inner"

/-- Embeds `reflection<Inner>::fields(inner)` -/
def reflection_Inner.fields (inner : Inner) : List (NamedField Value) :=
  [ ⟨"x", .primitive (.int inner.x)⟩,
    ⟨"y", .primitive (.double inner.y)⟩,
    ⟨"z", .primitive (.string inner.z)⟩ ]

/-- Embeds `reflection<Inner>::values(inner)` -/
def reflection_Inner.values (inner : Inner) : List Value :=
  [ .primitive (.int inner.x), .primitive (.double inner.y), .primitive (.string inner.z) ]

/-- An `Inner` as a reflectable object. -/
def Inner.toObject (inner : Inner) : Object :=
  .mk reflection_Inner.name (reflection_Inner.fields inner) (reflection_Inner.values inner)

/-- Embeds `reflection<Outer>::name()` -/
def reflection_Outer.name : String := "Outer"

/-- Embeds `reflection<Outer>::fields(outer)` -/
def reflection_Outer.fields (outer : Outer) : List (NamedField Value) :=
  [ ⟨"a", .primitive (.string outer.a)⟩,
    ⟨"b", .primitive (.string outer.b)⟩,
    ⟨"inner", .object outer.inner.toObject⟩ ]

/-- Embeds `reflection<Outer>::values(outer)` -/
def reflection_Outer.values (outer : Outer) : List Value :=
  [ .primitive (.string outer.a), .primitive (.string outer.b), .object outer.inner.toObject ]

/-- An `Outer` as a reflectable object. -/
def Outer.toObject (outer : Outer) : Object :=
  .mk reflection_Outer.name (reflection_Outer.fields outer) (reflection_Outer.values outer)

/-! ## Errors, sink, formatter state -/

/-- How a call can fail. -/
inductive Fault where
  /-- Thrown by `throw format_error("invalid format")`. -/
  | format_error
  /-- Raised when `*it` is evaluated with `it == end`: a read outside the specifier. -/
  | read_at_end
deriving DecidableEq, Repr

/-- The sink after a call, and whether the call returned or threw. -/
inductive Outcome where
  | returned (out : String)
  | thrown (e : Fault) (out : String)
deriving DecidableEq, Repr

/-- Run `k` on the sink of a call that returned; a throw passes through. -/
def Outcome.andThen (r : Outcome) (k : String → Outcome) : Outcome :=
  match r with
  | .returned out => k out
  | .thrown e out => .thrown e out

/-- The text in the sink, whether the call returned or threw. -/
def Outcome.sink : Outcome → String
  | .returned out => out
  | .thrown _ out => out

/-- Embeds `std::variant<simple_fmt, extended_fmt>`: both alternatives are empty
structs, so the variant is the index of the alternative it holds. -/
inductive underlying_formatter_type where
  | simple_fmt
  | extended_fmt
deriving DecidableEq, Repr

/-- A default-constructed `std::variant` holds its first alternative. -/
instance : Inhabited underlying_formatter_type := ⟨.simple_fmt⟩

/-! ## `fmt::formatter<T>::parse` (reflectable `T`) -/

/-- Lines 135-154. `ctx` is the range `[ctx.begin(), ctx.end())`, `self` the
member `underlying_formatter` before the call. The result is the member after
the call and either the returned iterator (as an offset from `ctx.begin()`) or
the fault. -/
def formatter_Reflectable.parse (self : underlying_formatter_type) (ctx : List Char) :
    underlying_formatter_type × Except Fault Nat :=
  let it := 0
  let end_ := ctx.length
  match ctx.get? it with
  | none => (self, .error .read_at_end)
  | some c =>
    let chosen : Option underlying_formatter_type :=
      if c = 's' then some .simple_fmt
      else if c = 'e' then some .extended_fmt
      else none
    match chosen with
    | none => (self, .error .format_error)
    | some self =>
      let it := it + 1
      if it ≠ end_ then
        match ctx.get? it with
        | none => (self, .error .read_at_end)
        | some d =>
          if d ≠ '}' then (self, .error .format_error) else (self, .ok it)
      else (self, .ok it)

/-! ## Primitive text -/

/-- The library's text for an `int` without a specifier: base 10, `-` before a
negative number. -/
def int_text (i : Int) : String := toString i

/-- The library's text for a primitive without a specifier (`{}`, or a
default-constructed formatter). `dtext` is its text for a `double`. -/
def primitive_text (dtext : Double → String) : Primitive → String
  | .int i => int_text i
  | .double d => dtext d
  | .string s => s

/-! ## The formatters -/

mutual
/-- Embeds `formatter<Arg>{}.format(arg, ctx)`: how `fmt::join` over a tuple writes
one element, with a default-constructed formatter on which `parse` was not
called. -/
def format_default (dtext : Double → String) (arg : Value) (sink : String) : Outcome :=
  match arg with
  | .primitive p => .returned (sink ++ primitive_text dtext p)
  | .object o => formatter_Reflectable.format dtext default o sink
termination_by (sizeOf arg, 0)
/-- Embeds `fmt::join(reflection<T>::values(t), sep)` written by its formatter: the
elements in order, `sep` between two neighbours. -/
def join_values (dtext : Double → String) (sep : String) (args : List Value) (sink : String) :
    Outcome :=
  match args with
  | [] => .returned sink
  | arg :: rest =>
    (format_default dtext arg sink).andThen fun out =>
      if rest.length > 0 then join_values dtext sep rest (out ++ sep) else .returned out
termination_by (sizeOf args, 0)
/-- Embeds `fmt::join(reflection<T>::fields(t), sep)` written by its formatter: the
named fields in order, each by `formatter<NamedField<T>>`, `sep` between two
neighbours. -/
def join_fields (dtext : Double → String) (sep : String) (args : List (NamedField Value))
    (sink : String) : Outcome :=
  match args with
  | [] => .returned sink
  | arg :: rest =>
    (formatter_NamedField.format dtext arg sink).andThen fun out =>
      if rest.length > 0 then join_fields dtext sep rest (out ++ sep) else .returned out
termination_by (sizeOf args, 0)
/-- Lines 73-86, `fmt::formatter<NamedField<T>>::format`. -/
def formatter_NamedField.format (dtext : Double → String) (t : NamedField Value)
    (sink : String) : Outcome :=
  match t with
  | ⟨name, .object o⟩ =>
    -- fmt::format_to(ctx.out(), ".{}={:e}", t.name, t.value)
    format_custom_arg dtext "e\x7d".toList o (sink ++ "." ++ name ++ "=")
  | ⟨name, .primitive p⟩ =>
    -- fmt::format_to(ctx.out(), ".{}={}", t.name, t.value)
    .returned (sink ++ "." ++ name ++ "=" ++ primitive_text dtext p)
termination_by (sizeOf t, 0)
/-- Lines 97-104, `fmt::formatter<Simple<T>>::format`. -/
def formatter_Simple.format (dtext : Double → String) (t : Object) (sink : String) : Outcome :=
  match t with
  | .mk _ _ values => join_values dtext "|" values sink
termination_by (sizeOf t, 1)
/-- Lines 114-127, `fmt::formatter<Extended<T>>::format`. -/
def formatter_Extended.format (dtext : Double → String) (t : Object) (sink : String) :
    Outcome :=
  match t with
  | .mk name fields _ =>
    (join_fields dtext ", " fields (sink ++ name ++ "\x7b")).andThen fun out =>
      .returned (out ++ "\x7d")
termination_by (sizeOf t, 1)
/-- Lines 156-159, `fmt::formatter<T>::format` for reflectable `T`: `std::visit`
on the variant. -/
def formatter_Reflectable.format (dtext : Double → String) (self : underlying_formatter_type)
    (t : Object) (sink : String) : Outcome :=
  match self with
  | .simple_fmt => formatter_Simple.format dtext t sink
  | .extended_fmt => formatter_Extended.format dtext t sink
termination_by (sizeOf t, 2)
/-- What the library does for a replacement field `{:spec}` whose argument is
reflectable: it default-constructs the formatter, calls `parse` on the text
after the colon and then `format`. -/
def format_custom_arg (dtext : Double → String) (spec : List Char) (t : Object)
    (sink : String) : Outcome :=
  match formatter_Reflectable.parse default spec with
  | (_, .error e) => .thrown e sink
  | (self, .ok _) => formatter_Reflectable.format dtext self t sink
termination_by (sizeOf t, 3)
end

/-- Embeds `fmt::format("{:spec}", t)` for a reflectable `t`, started on an empty
buffer: the string, or the fault that was thrown. `spec` is the text the
library hands to `parse`, what follows the colon of the replacement field. -/
def fmt_format (dtext : Double → String) (spec : String) (t : Object) : Except Fault String :=
  match format_custom_arg dtext spec.toList t "" with
  | .returned out => .ok out
  | .thrown e _ => .error e

/-! ## The driver's value -/

/-- The `double` nearest to 3.14. -/
def y_3_14 : Double := ⟨0x40091EB851EB851F⟩

/-- The value `Outer{.a = "a", .b = "b", .inner = {.x = 1, .y = 3.14, .z = "z"}}` of `main`. -/
def outer : Outer := ⟨"a", "b", ⟨1, y_3_14, "z"⟩⟩

/-- A text function for doubles that writes the driver's 3.14 as the library
does without a specifier, `3.14`, the text of the driver's reference strings.
It stands for the library where a statement is evaluated at the driver's
value. -/
def driver_double_text (d : Double) : String :=
  if d = y_3_14 then "3.14" else "0"

/-! ## Braces of an output, nesting of a value -/

/-- Number of opening braces in a text. -/
def opens (cs : List Char) : Nat := cs.count '{'

/-- Number of closing braces in a text. -/
def closes (cs : List Char) : Nat := cs.count '}'

/-- A text without a brace character. -/
def brace_free (s : String) : Prop := '{' ∉ s.toList ∧ '}' ∉ s.toList

instance (s : String) : Decidable (brace_free s) := by
  unfold brace_free
  infer_instance

/-- Balanced braces: every prefix has at least as many opening as closing
braces, and the whole text as many of the one as of the other. -/
def balanced_braces (s : String) : Prop :=
  (∀ p ∈ s.toList.inits, closes p ≤ opens p) ∧ opens s.toList = closes s.toList

instance (s : String) : Decidable (balanced_braces s) := by
  unfold balanced_braces
  infer_instance

/-- The braces left open at the end of a prefix. -/
def nesting_at (p : List Char) : Nat := opens p - closes p

/-- The maximum brace nesting depth of a text: the most braces left open at
the end of any of its prefixes. -/
def max_nesting_depth (s : String) : Nat :=
  (s.toList.inits.map nesting_at).foldr max 0

/-- Braces of `cs` are balanced and nest exactly `k` deep, by prefix length. -/
def WellNested (cs : List Char) (k : Nat) : Prop :=
  (∀ n, closes (cs.take n) ≤ opens (cs.take n) ∧ opens (cs.take n) ≤ closes (cs.take n) + k) ∧
  opens cs = closes cs ∧ ∃ n, opens (cs.take n) = closes (cs.take n) + k

mutual
/-- Reflectable-field nesting depth of a value: 0 for a primitive. -/
def Value.depth : Value → Nat
  | .primitive _ => 0
  | .object o => o.depth
/-- Reflectable-field nesting depth of an object: one more than the deepest of
the values of `fields`. -/
def Object.depth : Object → Nat
  | .mk _ fields _ => fields_depth fields + 1
/-- The deepest value among named fields. -/
def fields_depth : List (NamedField Value) → Nat
  | [] => 0
  | f :: rest => max (field_depth f) (fields_depth rest)
/-- Depth of the value of a named field. -/
def field_depth : NamedField Value → Nat
  | ⟨_, v⟩ => v.depth
end

mutual
/-- No brace in a string value, nor in the names and strings below an object. -/
def Value.plain : Value → Prop
  | .primitive (.string s) => brace_free s
  | .primitive (.int _) => True
  | .primitive (.double _) => True
  | .object o => o.plain
/-- No brace in the type name, the field names and the string fields of an
object, at any depth of `fields`. -/
def Object.plain : Object → Prop
  | .mk name fields _ => brace_free name ∧ fields_plain fields
/-- Every named field is plain. -/
def fields_plain : List (NamedField Value) → Prop
  | [] => True
  | f :: rest => field_plain f ∧ fields_plain rest
/-- Name and value of a named field are plain. -/
def field_plain : NamedField Value → Prop
  | ⟨name, v⟩ => brace_free name ∧ v.plain
end

/-! ## Type names in an output -/

/-- The text contains one of the two type names, `Outer` or `Inner`. -/
def contains_type_name (s : String) : Prop :=
  reflection_Outer.name.toList <:+: s.toList ∨ reflection_Inner.name.toList <:+: s.toList

instance (s : String) : Decidable (contains_type_name s) := by
  unfold contains_type_name
  infer_instance

/-- A text with no brace and no type name in it. -/
def without_brace_or_type_name (s : String) : Prop :=
  brace_free s ∧ ¬ contains_type_name s

instance (s : String) : Decidable (without_brace_or_type_name s) := by
  unfold without_brace_or_type_name
  infer_instance

mutual
/-- No brace and no type name in a string value, nor in the strings below an
object. -/
def Value.leaves_clean : Value → Prop
  | .primitive (.string s) => without_brace_or_type_name s
  | .primitive (.int _) => True
  | .primitive (.double _) => True
  | .object o => o.leaves_clean
/-- No brace and no type name in the string values of an object, at any depth
of `values`. -/
def Object.leaves_clean : Object → Prop
  | .mk _ _ values => values_leaves_clean values
/-- Every value of the list has clean leaves. -/
def values_leaves_clean : List Value → Prop
  | [] => True
  | v :: rest => v.leaves_clean ∧ values_leaves_clean rest
end

/-! ## Unfolding lemmas -/

theorem default_underlying_formatter :
    (default : underlying_formatter_type) = .simple_fmt := rfl

theorem parse_s (self : underlying_formatter_type) :
    formatter_Reflectable.parse self ['s'] = (.simple_fmt, .ok 1) := rfl

theorem parse_e (self : underlying_formatter_type) :
    formatter_Reflectable.parse self ['e'] = (.extended_fmt, .ok 1) := rfl

theorem parse_s_close (self : underlying_formatter_type) (rest : List Char) :
    formatter_Reflectable.parse self ('s' :: '}' :: rest) = (.simple_fmt, .ok 1) := by
  simp [formatter_Reflectable.parse]

theorem parse_e_close (self : underlying_formatter_type) (rest : List Char) :
    formatter_Reflectable.parse self ('e' :: '}' :: rest) = (.extended_fmt, .ok 1) := by
  simp [formatter_Reflectable.parse]

/-- The Simple formatter on an `Inner`. -/
theorem simple_Inner (dtext : Double → String) (v : Inner) (sink : String) :
    formatter_Simple.format dtext v.toObject sink =
      .returned (sink ++ int_text v.x ++ "|" ++ dtext v.y ++ "|" ++ v.z) := by
  simp [formatter_Simple.format, Inner.toObject, reflection_Inner.values, join_values,
    format_default, Outcome.andThen, primitive_text, String.append_assoc]

/-- The Simple formatter on an `Outer`. -/
theorem simple_Outer (dtext : Double → String) (v : Outer) (sink : String) :
    formatter_Simple.format dtext v.toObject sink =
      .returned (sink ++ v.a ++ "|" ++ v.b ++ "|" ++ int_text v.inner.x ++ "|" ++
        dtext v.inner.y ++ "|" ++ v.inner.z) := by
  simp [formatter_Simple.format, Outer.toObject, reflection_Outer.values, join_values,
    format_default, formatter_Reflectable.format, default_underlying_formatter, simple_Inner,
    Outcome.andThen, primitive_text, String.append_assoc]

/-- The Extended formatter on an `Inner`. -/
theorem extended_Inner (dtext : Double → String) (v : Inner) (sink : String) :
    formatter_Extended.format dtext v.toObject sink =
      .returned (sink ++ "Inner\x7b.x=" ++ int_text v.x ++ ", .y=" ++ dtext v.y ++ ", .z=" ++
        v.z ++ "\x7d") := by
  simp [formatter_Extended.format, Inner.toObject, reflection_Inner.fields,
    reflection_Inner.name, join_fields, formatter_NamedField.format, Outcome.andThen,
    primitive_text, String.append_assoc]

/-- The Extended formatter on an `Outer`. -/
theorem extended_Outer (dtext : Double → String) (v : Outer) (sink : String) :
    formatter_Extended.format dtext v.toObject sink =
      .returned (sink ++ "Outer\x7b.a=" ++ v.a ++ ", .b=" ++ v.b ++ ", .inner=Inner\x7b.x=" ++
        int_text v.inner.x ++ ", .y=" ++ dtext v.inner.y ++ ", .z=" ++ v.inner.z ++ "\x7d\x7d") := by
  simp [formatter_Extended.format, Outer.toObject, reflection_Outer.fields,
    reflection_Outer.name, join_fields, formatter_NamedField.format, format_custom_arg,
    parse_e_close, formatter_Reflectable.format, extended_Inner, Outcome.andThen,
    primitive_text, String.append_assoc]

/-- Specifier `s`, alone or before the closing brace, runs the Simple formatter. -/
theorem custom_arg_s (dtext : Double → String) (t : Object) (sink : String) :
    format_custom_arg dtext ['s'] t sink = formatter_Simple.format dtext t sink ∧
    ∀ rest, format_custom_arg dtext ('s' :: '}' :: rest) t sink =
      formatter_Simple.format dtext t sink := by
  constructor
  · simp [format_custom_arg, parse_s, formatter_Reflectable.format]
  · intro rest
    simp [format_custom_arg, parse_s_close, formatter_Reflectable.format]

/-- Specifier `e`, alone or before the closing brace, runs the Extended formatter. -/
theorem custom_arg_e (dtext : Double → String) (t : Object) (sink : String) :
    format_custom_arg dtext ['e'] t sink = formatter_Extended.format dtext t sink ∧
    ∀ rest, format_custom_arg dtext ('e' :: '}' :: rest) t sink =
      formatter_Extended.format dtext t sink := by
  constructor
  · simp [format_custom_arg, parse_e, formatter_Reflectable.format]
  · intro rest
    simp [format_custom_arg, parse_e_close, formatter_Reflectable.format]

/-- Value of `fmt::format("{:s}", v)` on an `Outer`. -/
theorem render_s_Outer (dtext : Double → String) (v : Outer) :
    fmt_format dtext "s" v.toObject =
      .ok (v.a ++ "|" ++ v.b ++ "|" ++ int_text v.inner.x ++ "|" ++ dtext v.inner.y ++ "|" ++
        v.inner.z) := by
  simp [fmt_format, (custom_arg_s dtext v.toObject "").1, simple_Outer, String.append_assoc]

/-- Value of `fmt::format("{:e}", v)` on an `Outer`. -/
theorem render_e_Outer (dtext : Double → String) (v : Outer) :
    fmt_format dtext "e" v.toObject =
      .ok ("Outer\x7b.a=" ++ v.a ++ ", .b=" ++ v.b ++ ", .inner=Inner\x7b.x=" ++ int_text v.inner.x ++
        ", .y=" ++ dtext v.inner.y ++ ", .z=" ++ v.inner.z ++ "\x7d\x7d") := by
  simp [fmt_format, (custom_arg_e dtext v.toObject "").1, extended_Outer, String.append_assoc]

/-- Value of `fmt::format("{:s}", v)` on an `Inner`. -/
theorem render_s_Inner (dtext : Double → String) (v : Inner) :
    fmt_format dtext "s" v.toObject =
      .ok (int_text v.x ++ "|" ++ dtext v.y ++ "|" ++ v.z) := by
  simp [fmt_format, (custom_arg_s dtext v.toObject "").1, simple_Inner, String.append_assoc]

/-- Value of `fmt::format("{:e}", v)` on an `Inner`. -/
theorem render_e_Inner (dtext : Double → String) (v : Inner) :
    fmt_format dtext "e" v.toObject =
      .ok ("Inner\x7b.x=" ++ int_text v.x ++ ", .y=" ++ dtext v.y ++ ", .z=" ++ v.z ++ "\x7d") := by
  simp [fmt_format, (custom_arg_e dtext v.toObject "").1, extended_Inner, String.append_assoc]

theorem int_text_one : int_text 1 = "1" := by decide

/-! ## Brace counting -/

theorem opens_append (a b : List Char) : opens (a ++ b) = opens a + opens b := by
  simp [opens, List.count_append]

theorem closes_append (a b : List Char) : closes (a ++ b) = closes a + closes b := by
  simp [closes, List.count_append]

theorem opens_of_not_mem {cs : List Char} (h : '{' ∉ cs) : opens cs = 0 := by
  simpa [opens] using List.count_eq_zero_of_not_mem h

theorem closes_of_not_mem {cs : List Char} (h : '}' ∉ cs) : closes cs = 0 := by
  simpa [closes] using List.count_eq_zero_of_not_mem h

/-- A text without braces is well nested at depth 0. -/
theorem WellNested.of_brace_free {s : String} (h : brace_free s) : WellNested s.toList 0 := by
  have ho : ∀ n, opens (s.toList.take n) = 0 := fun n =>
    opens_of_not_mem fun hm => h.1 (List.mem_of_mem_take hm)
  have hc : ∀ n, closes (s.toList.take n) = 0 := fun n =>
    closes_of_not_mem fun hm => h.2 (List.mem_of_mem_take hm)
  refine ⟨fun n => by rw [ho n, hc n]; omega, ?_, 0, by simp [opens, closes]⟩
  rw [opens_of_not_mem h.1, closes_of_not_mem h.2]

/-- Two well nested texts one after the other nest as deep as the deeper. -/
theorem WellNested.append {a b : List Char} {j k : Nat} (ha : WellNested a j)
    (hb : WellNested b k) : WellNested (a ++ b) (max j k) := by
  obtain ⟨ha1, ha2, na, ha3⟩ := ha
  obtain ⟨hb1, hb2, nb, hb3⟩ := hb
  refine ⟨fun n => ?_, ?_, ?_⟩
  · rw [List.take_append_eq_append_take, opens_append, closes_append]
    by_cases hn : n ≤ a.length
    · have h0 : n - a.length = 0 := by omega
      have := ha1 n
      simp only [h0, List.take_zero, opens, closes, List.count_nil]
      simp only [opens, closes] at this
      omega
    · have hall : a.take n = a := List.take_of_length_le (by omega)
      have := hb1 (n - a.length)
      rw [hall]
      omega
  · rw [opens_append, closes_append]
    omega
  · by_cases hjk : k ≤ j
    · refine ⟨min na a.length, ?_⟩
      rw [List.take_append_eq_append_take, opens_append, closes_append]
      have h0 : min na a.length - a.length = 0 := by omega
      have hmin : a.take (min na a.length) = a.take na := by
        rcases Nat.le_total na a.length with h | h
        · rw [Nat.min_eq_left h]
        · rw [Nat.min_eq_right h, List.take_of_length_le h, List.take_of_length_le (le_refl _)]
      rw [h0, hmin, Nat.max_eq_left hjk]
      simp only [List.take_zero, opens, closes, List.count_nil]
      simp only [opens, closes] at ha3
      omega
    · refine ⟨a.length + nb, ?_⟩
      rw [List.take_append_eq_append_take, opens_append, closes_append]
      have h0 : a.length + nb - a.length = nb := by omega
      rw [h0, List.take_of_length_le (by omega), Nat.max_eq_right (by omega)]
      omega

/-- A well nested text between a pair of braces nests one deeper. -/
theorem WellNested.wrap {a : List Char} {k : Nat} (ha : WellNested a k) :
    WellNested ('{' :: (a ++ ['}'])) (k + 1) := by
  obtain ⟨ha1, ha2, na, ha3⟩ := ha
  have o1 : ∀ l : List Char, opens ('{' :: l) = opens l + 1 := fun l => by simp [opens]
  have c1 : ∀ l : List Char, closes ('{' :: l) = closes l := fun l => by simp [closes]
  have o2 : opens ['}'] = 0 := by decide
  have c2 : closes ['}'] = 1 := by decide
  refine ⟨fun n => ?_, ?_, ?_⟩
  · cases n with
    | zero => simp [opens, closes]
    | succ m =>
      rw [List.take_succ_cons, o1, c1, List.take_append_eq_append_take, opens_append,
        closes_append]
      by_cases hm : m ≤ a.length
      · have h0 : m - a.length = 0 := by omega
        have := ha1 m
        simp only [h0, List.take_zero, opens, closes, List.count_nil]
        simp only [opens, closes] at this
        omega
      · have hall : a.take m = a := List.take_of_length_le (by omega)
        have hone : List.take (m - a.length) ['}'] = ['}'] :=
          List.take_of_length_le (by simp; omega)
        rw [hall, hone, o2, c2]
        omega
  · rw [o1, c1, opens_append, closes_append, o2, c2]
    omega
  · refine ⟨min na a.length + 1, ?_⟩
    rw [List.take_succ_cons, o1, c1, List.take_append_eq_append_take, opens_append,
      closes_append]
    have h0 : min na a.length - a.length = 0 := by omega
    have hmin : a.take (min na a.length) = a.take na := by
      rcases Nat.le_total na a.length with h | h
      · rw [Nat.min_eq_left h]
      · rw [Nat.min_eq_right h, List.take_of_length_le h, List.take_of_length_le (le_refl _)]
    rw [h0, hmin]
    simp only [List.take_zero, opens, closes, List.count_nil]
    simp only [opens, closes] at ha3
    omega

/-! ## The text of an `int` has no brace -/

theorem digitChar_not_brace (k : Nat) : Nat.digitChar k ≠ '{' ∧ Nat.digitChar k ≠ '}' := by
  by_cases h : k < 16
  · interval_cases k <;> exact ⟨by decide, by decide⟩
  · have e : Nat.digitChar k = '*' := by
      unfold Nat.digitChar
      repeat (rw [if_neg (by omega)])
    rw [e]
    exact ⟨by decide, by decide⟩

theorem toDigitsCore_no_brace (base : Nat) :
    ∀ (fuel n : Nat) (ds : List Char), ('{' ∉ ds ∧ '}' ∉ ds) →
      '{' ∉ Nat.toDigitsCore base fuel n ds ∧ '}' ∉ Nat.toDigitsCore base fuel n ds := by
  intro fuel
  induction fuel with
  | zero => intro n ds h; simpa [Nat.toDigitsCore] using h
  | succ fuel ih =>
    intro n ds h
    have hd := digitChar_not_brace (n % base)
    have hcons : '{' ∉ Nat.digitChar (n % base) :: ds ∧ '}' ∉ Nat.digitChar (n % base) :: ds := by
      refine ⟨?_, ?_⟩
      · simp only [List.mem_cons, not_or]
        exact ⟨fun e => hd.1 e.symm, h.1⟩
      · simp only [List.mem_cons, not_or]
        exact ⟨fun e => hd.2 e.symm, h.2⟩
    unfold Nat.toDigitsCore
    by_cases hz : n / base = 0
    · simpa [hz] using hcons
    · simpa [hz] using ih (n / base) _ hcons

theorem nat_repr_brace_free (n : Nat) : brace_free (Nat.repr n) := by
  have h := toDigitsCore_no_brace 10 (n + 1) n [] ⟨by simp, by simp⟩
  simpa [brace_free, Nat.repr, Nat.toDigits, List.asString] using h

theorem int_text_brace_free (i : Int) : brace_free (int_text i) := by
  cases i with
  | ofNat m => exact nat_repr_brace_free m
  | negSucc m =>
    have h := nat_repr_brace_free (m + 1)
    have e : int_text (Int.negSucc m) = "-" ++ Nat.repr (m + 1) := rfl
    rw [e]
    unfold brace_free at h ⊢
    simp only [String.toList, String.data_append, List.mem_append, not_or]
    exact ⟨⟨by decide, h.1⟩, ⟨by decide, h.2⟩⟩

/-! ## Extended output of a plain object -/

theorem toList_append (s t : String) : (s ++ t).toList = s.toList ++ t.toList :=
  String.data_append s t

theorem primitive_text_brace_free (dtext : Double → String)
    (hd : ∀ d, brace_free (dtext d)) (p : Primitive) (h : (Value.primitive p).plain) :
    brace_free (primitive_text dtext p) := by
  cases p with
  | int i => exact int_text_brace_free i
  | double d => exact hd d
  | string s => simpa [Value.plain] using h

mutual
/-- The Extended formatter appends to the sink a text that is well nested as
deep as the object. -/
theorem extended_nested (dtext : Double → String) (hd : ∀ d, brace_free (dtext d)) :
    ∀ o : Object, o.plain → ∃ text : String,
      (∀ sink, formatter_Extended.format dtext o sink = .returned (sink ++ text)) ∧
      WellNested text.toList o.depth
  | .mk name fields values, h => by
    have hp : brace_free name ∧ fields_plain fields := by simpa [Object.plain] using h
    obtain ⟨j, hj, wj⟩ := fields_nested dtext hd fields hp.2
    refine ⟨name ++ ("\x7b" ++ (j ++ "\x7d")), fun sink => ?_, ?_⟩
    · simp [formatter_Extended.format, hj, Outcome.andThen, String.append_assoc]
    · have w := (WellNested.of_brace_free hp.1).append wj.wrap
      have e : (name ++ ("\x7b" ++ (j ++ "\x7d"))).toList =
          name.toList ++ ('{' :: (j.toList ++ ['}'])) := by
        simp [toList_append]
      rw [e]
      simpa [Object.depth] using w
/-- The join of named fields appends a text well nested as deep as the
deepest field. -/
theorem fields_nested (dtext : Double → String) (hd : ∀ d, brace_free (dtext d)) :
    ∀ fs : List (NamedField Value), fields_plain fs → ∃ text : String,
      (∀ sink, join_fields dtext ", " fs sink = .returned (sink ++ text)) ∧
      WellNested text.toList (fields_depth fs)
  | [], _ => by
    refine ⟨"", fun sink => ?_, ?_⟩
    · simp [join_fields]
    · simpa [fields_depth] using WellNested.of_brace_free (s := "") (by decide)
  | f :: rest, h => by
    have hp : field_plain f ∧ fields_plain rest := by simpa [fields_plain] using h
    obtain ⟨tf, hf, wf⟩ := field_nested dtext hd f hp.1
    obtain ⟨tr, hr, wr⟩ := fields_nested dtext hd rest hp.2
    cases rest with
    | nil =>
      refine ⟨tf, fun sink => ?_, ?_⟩
      · simp [join_fields, hf, Outcome.andThen]
      · simpa [fields_depth] using wf
    | cons r more =>
      refine ⟨tf ++ (", " ++ tr), fun sink => ?_, ?_⟩
      · rw [join_fields]
        simp [hf, Outcome.andThen, hr, String.append_assoc]
      · have wsep : WellNested (", " : String).toList 0 := WellNested.of_brace_free (by decide)
        have w := wf.append (wsep.append wr)
        rw [toList_append, toList_append]
        simpa [fields_depth] using w
/-- The named-field formatter appends a text well nested as deep as the value
of the field. -/
theorem field_nested (dtext : Double → String) (hd : ∀ d, brace_free (dtext d)) :
    ∀ f : NamedField Value, field_plain f → ∃ text : String,
      (∀ sink, formatter_NamedField.format dtext f sink = .returned (sink ++ text)) ∧
      WellNested text.toList (field_depth f)
  | ⟨name, .primitive p⟩, h => by
    have hp : brace_free name ∧ (Value.primitive p).plain := by simpa [field_plain] using h
    refine ⟨"." ++ (name ++ ("=" ++ primitive_text dtext p)), fun sink => ?_, ?_⟩
    · simp [formatter_NamedField.format, String.append_assoc]
    · have w1 : WellNested ("." : String).toList 0 := WellNested.of_brace_free (by decide)
      have w2 : WellNested ("=" : String).toList 0 := WellNested.of_brace_free (by decide)
      have w3 := WellNested.of_brace_free (primitive_text_brace_free dtext hd p hp.2)
      have w := w1.append ((WellNested.of_brace_free hp.1).append (w2.append w3))
      rw [toList_append, toList_append, toList_append]
      simpa [field_depth, Value.depth] using w
  | ⟨name, .object o⟩, h => by
    have hp : brace_free name ∧ o.plain := by simpa [field_plain, Value.plain] using h
    obtain ⟨t, ht, wt⟩ := extended_nested dtext hd o hp.2
    refine ⟨"." ++ (name ++ ("=" ++ t)), fun sink => ?_, ?_⟩
    · simp [formatter_NamedField.format, format_custom_arg, parse_e_close,
        formatter_Reflectable.format, ht, String.append_assoc]
    · have w1 : WellNested ("." : String).toList 0 := WellNested.of_brace_free (by decide)
      have w2 : WellNested ("=" : String).toList 0 := WellNested.of_brace_free (by decide)
      have w := w1.append ((WellNested.of_brace_free hp.1).append (w2.append wt))
      rw [toList_append, toList_append, toList_append]
      simpa [field_depth, Value.depth] using w
end

/-! ## From prefix lengths to prefixes -/

theorem foldr_max_le {α : Type} (f : α → Nat) (k : Nat) :
    ∀ l : List α, (∀ x ∈ l, f x ≤ k) → (l.map f).foldr max 0 ≤ k
  | [], _ => Nat.zero_le k
  | x :: l, h => by
    have hx := h x (List.mem_cons_self x l)
    have hl := foldr_max_le f k l fun y hy => h y (List.mem_cons_of_mem x hy)
    simp only [List.map_cons, List.foldr_cons]
    exact Nat.max_le.mpr ⟨hx, hl⟩

theorem le_foldr_max {α : Type} (f : α → Nat) (a : α) :
    ∀ l : List α, a ∈ l → f a ≤ (l.map f).foldr max 0
  | [], h => absurd h (List.not_mem_nil a)
  | x :: l, h => by
    simp only [List.map_cons, List.foldr_cons]
    rcases List.mem_cons.mp h with e | hm
    · rw [e]
      exact Nat.le_max_left _ _
    · exact Nat.le_trans (le_foldr_max f a l hm) (Nat.le_max_right _ _)

/-- A well nested text has balanced braces and its maximum nesting depth is
the depth it is well nested at. -/
theorem WellNested.balanced_and_depth {s : String} {k : Nat} (h : WellNested s.toList k) :
    balanced_braces s ∧ max_nesting_depth s = k := by
  obtain ⟨h1, h2, n, h3⟩ := h
  have take_of_mem : ∀ p ∈ s.toList.inits, p = s.toList.take p.length := fun p hp =>
    List.prefix_iff_eq_take.mp ((List.mem_inits _ _).mp hp)
  refine ⟨⟨fun p hp => ?_, h2⟩, ?_⟩
  · rw [take_of_mem p hp]
    exact (h1 _).1
  · apply Nat.le_antisymm
    · apply foldr_max_le
      intro p hp
      rw [take_of_mem p hp]
      have := h1 p.length
      unfold nesting_at
      omega
    · have hm : s.toList.take n ∈ s.toList.inits :=
        (List.mem_inits _ _).mpr (List.take_prefix n _)
      have := le_foldr_max nesting_at _ _ hm
      unfold max_nesting_depth
      unfold nesting_at at this ⊢
      omega

/-! ## Plain objects -/

theorem driver_double_text_brace_free (d : Double) : brace_free (driver_double_text d) := by
  unfold driver_double_text
  split <;> decide

/-- An `Outer` is plain when its three strings are. -/
theorem outer_object_plain (v : Outer) (ha : brace_free v.a) (hb : brace_free v.b)
    (hz : brace_free v.inner.z) : v.toObject.plain ∧ v.toObject.depth = 2 := by
  have n1 : brace_free "Outer" := by decide
  have n2 : brace_free "Inner" := by decide
  have f1 : brace_free "a" := by decide
  have f2 : brace_free "b" := by decide
  have f3 : brace_free "inner" := by decide
  have f4 : brace_free "x" := by decide
  have f5 : brace_free "y" := by decide
  have f6 : brace_free "z" := by decide
  constructor
  · simp [Outer.toObject, Inner.toObject, reflection_Outer.fields, reflection_Inner.fields,
      reflection_Outer.name, reflection_Inner.name, Object.plain, fields_plain, field_plain,
      Value.plain, n1, n2, f1, f2, f3, f4, f5, f6, ha, hb, hz]
  · simp [Outer.toObject, Inner.toObject, reflection_Outer.fields, reflection_Inner.fields,
      Object.depth, fields_depth, field_depth, Value.depth]

/-- An `Inner` is plain when its string is. -/
theorem inner_object_plain (v : Inner) (hz : brace_free v.z) :
    v.toObject.plain ∧ v.toObject.depth = 1 := by
  have n2 : brace_free "Inner" := by decide
  have f4 : brace_free "x" := by decide
  have f5 : brace_free "y" := by decide
  have f6 : brace_free "z" := by decide
  constructor
  · simp [Inner.toObject, reflection_Inner.fields, reflection_Inner.name, Object.plain,
      fields_plain, field_plain, Value.plain, n2, f4, f5, f6, hz]
  · simp [Inner.toObject, reflection_Inner.fields, Object.depth, fields_depth, field_depth,
      Value.depth]

/-- Extended rendering of a plain object: balanced, as deep as the object. -/
theorem render_e_plain (dtext : Double → String) (hd : ∀ d, brace_free (dtext d))
    (o : Object) (h : o.plain) :
    ∃ text : String, fmt_format dtext "e" o = .ok text ∧ balanced_braces text ∧
      max_nesting_depth text = o.depth := by
  obtain ⟨text, ht, wt⟩ := extended_nested dtext hd o h
  refine ⟨text, ?_, wt.balanced_and_depth⟩
  simp [fmt_format, (custom_arg_e dtext o "").1, ht]

/-! ## Every formatter returns -/

mutual
/-- The Simple formatter returns, and what it appends does not depend on the
sink. -/
theorem simple_returns (dtext : Double → String) :
    ∀ o : Object, ∃ text : String,
      ∀ sink, formatter_Simple.format dtext o sink = .returned (sink ++ text)
  | .mk name fields values => by
    obtain ⟨j, hj⟩ := values_return dtext values
    exact ⟨j, fun sink => by simp [formatter_Simple.format, hj]⟩
/-- The join of values returns. -/
theorem values_return (dtext : Double → String) :
    ∀ vs : List Value, ∃ text : String,
      ∀ sink, join_values dtext "|" vs sink = .returned (sink ++ text)
  | [] => ⟨"", fun sink => by simp [join_values]⟩
  | v :: rest => by
    obtain ⟨tv, hv⟩ := value_returns dtext v
    obtain ⟨tr, hr⟩ := values_return dtext rest
    cases rest with
    | nil => exact ⟨tv, fun sink => by simp [join_values, hv, Outcome.andThen]⟩
    | cons r more =>
      refine ⟨tv ++ ("|" ++ tr), fun sink => ?_⟩
      rw [join_values]
      simp [hv, Outcome.andThen, hr, String.append_assoc]
/-- A default-constructed formatter returns on every value. -/
theorem value_returns (dtext : Double → String) :
    ∀ v : Value, ∃ text : String,
      ∀ sink, format_default dtext v sink = .returned (sink ++ text)
  | .primitive p => ⟨primitive_text dtext p, fun sink => by simp [format_default]⟩
  | .object o => by
    obtain ⟨t, ht⟩ := simple_returns dtext o
    exact ⟨t, fun sink => by
      simp [format_default, formatter_Reflectable.format, default_underlying_formatter, ht]⟩
end

mutual
/-- The Extended formatter returns, and what it appends does not depend on the
sink. -/
theorem extended_returns (dtext : Double → String) :
    ∀ o : Object, ∃ text : String,
      ∀ sink, formatter_Extended.format dtext o sink = .returned (sink ++ text)
  | .mk name fields values => by
    obtain ⟨j, hj⟩ := fields_return dtext fields
    exact ⟨name ++ ("\x7b" ++ (j ++ "\x7d")), fun sink => by
      simp [formatter_Extended.format, hj, Outcome.andThen, String.append_assoc]⟩
/-- The join of named fields returns. -/
theorem fields_return (dtext : Double → String) :
    ∀ fs : List (NamedField Value), ∃ text : String,
      ∀ sink, join_fields dtext ", " fs sink = .returned (sink ++ text)
  | [] => ⟨"", fun sink => by simp [join_fields]⟩
  | f :: rest => by
    obtain ⟨tf, hf⟩ := field_returns dtext f
    obtain ⟨tr, hr⟩ := fields_return dtext rest
    cases rest with
    | nil => exact ⟨tf, fun sink => by simp [join_fields, hf, Outcome.andThen]⟩
    | cons r more =>
      refine ⟨tf ++ (", " ++ tr), fun sink => ?_⟩
      rw [join_fields]
      simp [hf, Outcome.andThen, hr, String.append_assoc]
/-- The named-field formatter returns. -/
theorem field_returns (dtext : Double → String) :
    ∀ f : NamedField Value, ∃ text : String,
      ∀ sink, formatter_NamedField.format dtext f sink = .returned (sink ++ text)
  | ⟨name, .primitive p⟩ =>
    ⟨"." ++ (name ++ ("=" ++ primitive_text dtext p)), fun sink => by
      simp [formatter_NamedField.format, String.append_assoc]⟩
  | ⟨name, .object o⟩ => by
    obtain ⟨t, ht⟩ := extended_returns dtext o
    exact ⟨"." ++ (name ++ ("=" ++ t)), fun sink => by
      simp [formatter_NamedField.format, format_custom_arg, parse_e_close,
        formatter_Reflectable.format, ht, String.append_assoc]⟩
end

/-- With specifier `s`, alone or before the closing brace, the render returns
the Simple formatter's text. -/
theorem render_s_returns (dtext : Double → String) (t : Object) :
    ∃ text : String, fmt_format dtext "s" t = .ok text ∧
      (∀ sink, formatter_Simple.format dtext t sink = .returned (sink ++ text)) ∧
      ∀ rest : List Char, fmt_format dtext ⟨'s' :: '}' :: rest⟩ t = .ok text := by
  obtain ⟨text, ht⟩ := simple_returns dtext t
  refine ⟨text, ?_, ht, fun rest => ?_⟩
  · simp [fmt_format, (custom_arg_s dtext t "").1, ht]
  · simp [fmt_format, (custom_arg_s dtext t "").2 rest, ht]

/-- With specifier `e`, alone or before the closing brace, the render returns
the Extended formatter's text. -/
theorem render_e_returns (dtext : Double → String) (t : Object) :
    ∃ text : String, fmt_format dtext "e" t = .ok text ∧
      (∀ sink, formatter_Extended.format dtext t sink = .returned (sink ++ text)) ∧
      ∀ rest : List Char, fmt_format dtext ⟨'e' :: '}' :: rest⟩ t = .ok text := by
  obtain ⟨text, ht⟩ := extended_returns dtext t
  refine ⟨text, ?_, ht, fun rest => ?_⟩
  · simp [fmt_format, (custom_arg_e dtext t "").1, ht]
  · simp [fmt_format, (custom_arg_e dtext t "").2 rest, ht]

/-! ## Which specifiers are accepted -/

/-- On a non-empty specifier the library call either runs as with the first
character alone, which is `s` or `e` and is followed by nothing or by a
closing brace, or throws `format_error` with the sink untouched. -/
theorem custom_arg_cons (dtext : Double → String) (c : Char) (rest : List Char) (t : Object)
    (sink : String) :
    ((c = 's' ∨ c = 'e') ∧ (rest = [] ∨ ∃ more, rest = '}' :: more) ∧
      format_custom_arg dtext (c :: rest) t sink = format_custom_arg dtext [c] t sink) ∨
    (¬ ((c = 's' ∨ c = 'e') ∧ (rest = [] ∨ ∃ more, rest = '}' :: more)) ∧
      format_custom_arg dtext (c :: rest) t sink = .thrown .format_error sink) := by
  by_cases hs : c = 's'
  · cases rest with
    | nil => exact Or.inl ⟨Or.inl hs, Or.inl rfl, rfl⟩
    | cons d more =>
      by_cases hd : d = '}'
      · refine Or.inl ⟨Or.inl hs, Or.inr ⟨more, by rw [hd]⟩, ?_⟩
        rw [hs, hd, (custom_arg_s dtext t sink).2 more, (custom_arg_s dtext t sink).1]
      · refine Or.inr ⟨?_, ?_⟩
        · simp [hd]
        · simp [format_custom_arg, formatter_Reflectable.parse, hs, hd]
  · by_cases he : c = 'e'
    · cases rest with
      | nil => exact Or.inl ⟨Or.inr he, Or.inl rfl, rfl⟩
      | cons d more =>
        by_cases hd : d = '}'
        · refine Or.inl ⟨Or.inr he, Or.inr ⟨more, by rw [hd]⟩, ?_⟩
          rw [he, hd, (custom_arg_e dtext t sink).2 more, (custom_arg_e dtext t sink).1]
        · refine Or.inr ⟨?_, ?_⟩
          · simp [hd]
          · simp [format_custom_arg, formatter_Reflectable.parse, he, hd]
    · refine Or.inr ⟨?_, ?_⟩
      · simp [hs, he]
      · simp [format_custom_arg, formatter_Reflectable.parse, hs, he]

/-- After `s` a closing brace and any text change nothing. -/
theorem fmt_format_s_close (dtext : Double → String) (t : Object) (rest : List Char) :
    fmt_format dtext ⟨'s' :: '}' :: rest⟩ t = fmt_format dtext "s" t := by
  obtain ⟨text, h1, _, h3⟩ := render_s_returns dtext t
  rw [h1, h3]

/-- After `e` a closing brace and any text change nothing. -/
theorem fmt_format_e_close (dtext : Double → String) (t : Object) (rest : List Char) :
    fmt_format dtext ⟨'e' :: '}' :: rest⟩ t = fmt_format dtext "e" t := by
  obtain ⟨text, h1, _, h3⟩ := render_e_returns dtext t
  rw [h1, h3]

/-! ## Simple output without braces and type names -/

/-- A word without the separator that occurs in `a ++ sep :: b` occurs in `a`
or in `b`. -/
theorem infix_of_infix_sep {w a b : List Char} {sep : Char} (hsep : sep ∉ w)
    (h : w <:+: a ++ sep :: b) : w <:+: a ∨ w <:+: b := by
  obtain ⟨p, q, hpq⟩ := h
  rw [List.append_assoc] at hpq
  rcases List.append_eq_append_iff.mp hpq with ⟨a', ha, hw⟩ | ⟨c', hp, hc⟩
  · -- a = p ++ a', w ++ q = a' ++ sep :: b
    rcases List.append_eq_append_iff.mp hw with ⟨x, hx, _⟩ | ⟨x, hx, hsb⟩
    · -- a' = w ++ x
      left
      exact ⟨p, x, by rw [ha, hx, List.append_assoc]⟩
    · -- w = a' ++ x, sep :: b = x ++ q
      cases x with
      | nil =>
        left
        refine ⟨p, [], ?_⟩
        rw [ha, hx]
        simp
      | cons y x' =>
        exfalso
        apply hsep
        have hy : sep = y := by
          have := congrArg List.head? hsb
          simpa using this
        rw [hx, hy]
        simp
  · -- p = a ++ c', sep :: b = c' ++ (w ++ q)
    cases c' with
    | nil =>
      cases w with
      | nil => exact Or.inl ⟨[], a, by simp⟩
      | cons y w' =>
        exfalso
        apply hsep
        have hy : sep = y := by
          have := congrArg List.head? hc
          simpa using this
        rw [hy]
        simp
    | cons y c'' =>
      right
      have hb : b = c'' ++ (w ++ q) := by
        have := congrArg List.tail hc
        simpa using this
      exact ⟨c'', q, by rw [hb, List.append_assoc]⟩

theorem brace_free_append {s t : String} (hs : brace_free s) (ht : brace_free t) :
    brace_free (s ++ t) := by
  unfold brace_free at *
  rw [toList_append]
  simp only [List.mem_append, not_or]
  exact ⟨⟨hs.1, ht.1⟩, ⟨hs.2, ht.2⟩⟩

/-- Two texts without brace and type name, joined by the Simple delimiter. -/
theorem without_brace_or_type_name_join {s t : String} (hs : without_brace_or_type_name s)
    (ht : without_brace_or_type_name t) : without_brace_or_type_name (s ++ "|" ++ t) := by
  refine ⟨brace_free_append (brace_free_append hs.1 (by decide)) ht.1, ?_⟩
  have e : (s ++ "|" ++ t).toList = s.toList ++ '|' :: t.toList := by
    simp [toList_append]
  unfold contains_type_name
  rw [e]
  rintro (h | h)
  · rcases infix_of_infix_sep (by decide) h with h | h
    · exact hs.2 (Or.inl h)
    · exact ht.2 (Or.inl h)
  · rcases infix_of_infix_sep (by decide) h with h | h
    · exact hs.2 (Or.inr h)
    · exact ht.2 (Or.inr h)

theorem digitChar_not_capital (k : Nat) : Nat.digitChar k ≠ 'O' ∧ Nat.digitChar k ≠ 'I' := by
  by_cases h : k < 16
  · interval_cases k <;> exact ⟨by decide, by decide⟩
  · have e : Nat.digitChar k = '*' := by
      unfold Nat.digitChar
      repeat (rw [if_neg (by omega)])
    rw [e]
    exact ⟨by decide, by decide⟩

theorem toDigitsCore_no_capital (base : Nat) :
    ∀ (fuel n : Nat) (ds : List Char), ('O' ∉ ds ∧ 'I' ∉ ds) →
      'O' ∉ Nat.toDigitsCore base fuel n ds ∧ 'I' ∉ Nat.toDigitsCore base fuel n ds := by
  intro fuel
  induction fuel with
  | zero => intro n ds h; simpa [Nat.toDigitsCore] using h
  | succ fuel ih =>
    intro n ds h
    have hd := digitChar_not_capital (n % base)
    have hcons : 'O' ∉ Nat.digitChar (n % base) :: ds ∧ 'I' ∉ Nat.digitChar (n % base) :: ds := by
      refine ⟨?_, ?_⟩
      · simp only [List.mem_cons, not_or]
        exact ⟨fun e => hd.1 e.symm, h.1⟩
      · simp only [List.mem_cons, not_or]
        exact ⟨fun e => hd.2 e.symm, h.2⟩
    unfold Nat.toDigitsCore
    by_cases hz : n / base = 0
    · simpa [hz] using hcons
    · simpa [hz] using ih (n / base) _ hcons

/-- The text of an `int` has neither of the capitals the type names start with. -/
theorem int_text_no_capital (i : Int) : 'O' ∉ (int_text i).toList ∧ 'I' ∉ (int_text i).toList := by
  have nat : ∀ n : Nat, 'O' ∉ (Nat.repr n).toList ∧ 'I' ∉ (Nat.repr n).toList := fun n => by
    have h := toDigitsCore_no_capital 10 (n + 1) n [] ⟨by simp, by simp⟩
    simpa [Nat.repr, Nat.toDigits, List.asString] using h
  cases i with
  | ofNat m => exact nat m
  | negSucc m =>
    have h := nat (m + 1)
    have e : int_text (Int.negSucc m) = "-" ++ Nat.repr (m + 1) := rfl
    rw [e]
    simp only [String.toList, String.data_append, List.mem_append, not_or]
    exact ⟨⟨by decide, h.1⟩, ⟨by decide, h.2⟩⟩

/-- The text of an `int` has no brace and no type name. -/
theorem int_text_without_brace_or_type_name (i : Int) :
    without_brace_or_type_name (int_text i) := by
  refine ⟨int_text_brace_free i, ?_⟩
  have hc := int_text_no_capital i
  rintro (h | h)
  · exact hc.1 (h.subset (by decide))
  · exact hc.2 (h.subset (by decide))

/-- The Simple output of an `Inner` whose texts have no brace and no type name. -/
theorem simple_Inner_clean (dtext : Double → String)
    (hd : ∀ d, without_brace_or_type_name (dtext d)) (v : Inner)
    (hz : without_brace_or_type_name v.z) :
    without_brace_or_type_name (int_text v.x ++ "|" ++ dtext v.y ++ "|" ++ v.z) :=
  without_brace_or_type_name_join
    (without_brace_or_type_name_join (int_text_without_brace_or_type_name v.x) (hd v.y)) hz

/-- The Simple output of an `Outer` whose texts have no brace and no type name. -/
theorem simple_Outer_clean (dtext : Double → String)
    (hd : ∀ d, without_brace_or_type_name (dtext d)) (v : Outer)
    (ha : without_brace_or_type_name v.a) (hb : without_brace_or_type_name v.b)
    (hz : without_brace_or_type_name v.inner.z) :
    without_brace_or_type_name (v.a ++ "|" ++ v.b ++ "|" ++ int_text v.inner.x ++ "|" ++
      dtext v.inner.y ++ "|" ++ v.inner.z) :=
  without_brace_or_type_name_join
    (without_brace_or_type_name_join
      (without_brace_or_type_name_join (without_brace_or_type_name_join ha hb)
        (int_text_without_brace_or_type_name v.inner.x)) (hd v.inner.y)) hz

theorem driver_double_text_clean (d : Double) :
    without_brace_or_type_name (driver_double_text d) := by
  unfold driver_double_text
  split <;> decide

theorem primitive_text_clean (dtext : Double → String)
    (hd : ∀ d, without_brace_or_type_name (dtext d)) (p : Primitive)
    (h : (Value.primitive p).leaves_clean) :
    without_brace_or_type_name (primitive_text dtext p) := by
  cases p with
  | int i => exact int_text_without_brace_or_type_name i
  | double d => exact hd d
  | string s => simpa [Value.leaves_clean] using h

mutual
/-- The Simple formatter on an object with clean leaves appends a text without
brace and type name. -/
theorem simple_clean (dtext : Double → String)
    (hd : ∀ d, without_brace_or_type_name (dtext d)) :
    ∀ o : Object, o.leaves_clean → ∃ text : String,
      (∀ sink, formatter_Simple.format dtext o sink = .returned (sink ++ text)) ∧
      without_brace_or_type_name text
  | .mk name fields values, h => by
    have hv : values_leaves_clean values := by simpa [Object.leaves_clean] using h
    obtain ⟨j, hj, cj⟩ := values_clean dtext hd values hv
    exact ⟨j, fun sink => by simp [formatter_Simple.format, hj], cj⟩
/-- The join of values with clean leaves. -/
theorem values_clean (dtext : Double → String)
    (hd : ∀ d, without_brace_or_type_name (dtext d)) :
    ∀ vs : List Value, values_leaves_clean vs → ∃ text : String,
      (∀ sink, join_values dtext "|" vs sink = .returned (sink ++ text)) ∧
      without_brace_or_type_name text
  | [], _ => ⟨"", fun sink => by simp [join_values], by decide⟩
  | v :: rest, h => by
    have hp : v.leaves_clean ∧ values_leaves_clean rest := by
      simpa [values_leaves_clean] using h
    obtain ⟨tv, hv, cv⟩ := value_clean dtext hd v hp.1
    obtain ⟨tr, hr, cr⟩ := values_clean dtext hd rest hp.2
    cases rest with
    | nil => exact ⟨tv, fun sink => by simp [join_values, hv, Outcome.andThen], cv⟩
    | cons r more =>
      refine ⟨tv ++ "|" ++ tr, fun sink => ?_, without_brace_or_type_name_join cv cr⟩
      rw [join_values]
      simp [hv, Outcome.andThen, hr, String.append_assoc]
/-- A default-constructed formatter on a value with clean leaves. -/
theorem value_clean (dtext : Double → String)
    (hd : ∀ d, without_brace_or_type_name (dtext d)) :
    ∀ v : Value, v.leaves_clean → ∃ text : String,
      (∀ sink, format_default dtext v sink = .returned (sink ++ text)) ∧
      without_brace_or_type_name text
  | .primitive p, h =>
    ⟨primitive_text dtext p, fun sink => by simp [format_default],
      primitive_text_clean dtext hd p h⟩
  | .object o, h => by
    have ho : o.leaves_clean := by simpa [Value.leaves_clean] using h
    obtain ⟨t, ht, ct⟩ := simple_clean dtext hd o ho
    exact ⟨t, fun sink => by
      simp [format_default, formatter_Reflectable.format, default_underlying_formatter, ht],
      ct⟩
end

/-- Simple rendering of an object with clean leaves. -/
theorem render_s_clean (dtext : Double → String)
    (hd : ∀ d, without_brace_or_type_name (dtext d)) (o : Object) (h : o.leaves_clean) :
    ∃ text : String, fmt_format dtext "s" o = .ok text ∧ brace_free text ∧
      ¬ contains_type_name text := by
  obtain ⟨text, ht, ct⟩ := simple_clean dtext hd o h
  refine ⟨text, ?_, ct.1, ct.2⟩
  simp [fmt_format, (custom_arg_s dtext o "").1, ht]

/-! ## Claims -/

/-- C1: with specifier `s` every `Outer` is written as its leaf values in
declaration order, the nested `Inner` flattened, joined by `|`, nothing before
or after; when the library writes the driver's 3.14 as `3.14` the driver's
value gives `a|b|1|3.14|z`. -/
theorem simple_output_of_outer (dtext : Double → String) :
    (∀ v : Outer, fmt_format dtext "s" v.toObject =
      .ok (v.a ++ "|" ++ v.b ++ "|" ++ int_text v.inner.x ++ "|" ++ dtext v.inner.y ++ "|" ++
        v.inner.z)) ∧
    (dtext y_3_14 = "3.14" → fmt_format dtext "s" outer.toObject = .ok "a|b|1|3.14|z") := by
  refine ⟨render_s_Outer dtext, fun h => ?_⟩
  rw [render_s_Outer]
  simp [outer, h, int_text_one]

/-- Witness of C1 at the driver's value. -/
theorem simple_output_of_outer_witness :
    driver_double_text y_3_14 = "3.14" ∧
    fmt_format driver_double_text "s" outer.toObject = .ok "a|b|1|3.14|z" :=
  ⟨by decide, (simple_output_of_outer driver_double_text).2 (by decide)⟩

/-- C2: with specifier `e` every `Outer` is written as the driver's hand-built
reference string, the primitives in the same default text as on the Simple
path. -/
theorem extended_output_of_outer (dtext : Double → String) (v : Outer) :
    fmt_format dtext "e" v.toObject =
      .ok ("Outer\x7b.a=" ++ v.a ++ ", .b=" ++ v.b ++ ", .inner=Inner\x7b.x=" ++ int_text v.inner.x ++
        ", .y=" ++ dtext v.inner.y ++ ", .z=" ++ v.inner.z ++ "\x7d\x7d") := by
  exact render_e_Outer dtext v

/-- C3, as the claim has it, fails: on the driver's value the Extended output
carries `.y=3.14`, not `.y=3.140000e+00`. -/
theorem extended_sample_not_scientific :
    fmt_format driver_double_text "e" outer.toObject =
      .ok "Outer\x7b.a=a, .b=b, .inner=Inner\x7b.x=1, .y=3.14, .z=z\x7d\x7d" ∧
    fmt_format driver_double_text "e" outer.toObject ≠
      .ok "Outer\x7b.a=a, .b=b, .inner=Inner\x7b.x=1, .y=3.140000e+00, .z=z\x7d\x7d" := by
  have hy : driver_double_text y_3_14 = "3.14" := by decide
  have h : fmt_format driver_double_text "e" outer.toObject =
      .ok "Outer\x7b.a=a, .b=b, .inner=Inner\x7b.x=1, .y=3.14, .z=z\x7d\x7d" := by
    rw [render_e_Outer]
    simp [outer, hy, int_text_one]
  refine ⟨h, ?_⟩
  rw [h]
  intro hc
  injection hc with hc
  exact absurd hc (by decide)

/-- C3, amended: when the library writes the driver's 3.14 as `3.14` (its text
without a specifier), the Extended output of the driver's value is
`Outer{.a=a, .b=b, .inner=Inner{.x=1, .y=3.14, .z=z}}`: the named field `y` is
written in the same default text as on the Simple path. -/
theorem extended_sample_default_text (dtext : Double → String) (h : dtext y_3_14 = "3.14") :
    fmt_format dtext "e" outer.toObject =
      .ok "Outer\x7b.a=a, .b=b, .inner=Inner\x7b.x=1, .y=3.14, .z=z\x7d\x7d" ∧
    formatter_NamedField.format dtext ⟨"y", .primitive (.double y_3_14)⟩ "" =
      .returned (".y=" ++ primitive_text dtext (.double y_3_14)) := by
  constructor
  · rw [render_e_Outer]
    simp [outer, h, int_text_one]
  · simp [formatter_NamedField.format, String.append_assoc]

/-- Witness of C3 at the driver's value. -/
theorem extended_sample_default_text_witness :
    driver_double_text y_3_14 = "3.14" ∧
    fmt_format driver_double_text "e" outer.toObject =
      .ok "Outer\x7b.a=a, .b=b, .inner=Inner\x7b.x=1, .y=3.14, .z=z\x7d\x7d" :=
  ⟨by decide, (extended_sample_default_text driver_double_text (by decide)).1⟩

/-- C4: `parse` picks the formatter from the first character and `format`
forwards to it: with specifier `s` (alone, or as the library passes it, before
the closing brace) the call is the Simple formatter's, with `e` the Extended
formatter's, on the same object and sink. -/
theorem mode_dispatch (dtext : Double → String) (t : Object) (sink : String) :
    (formatter_Reflectable.parse default "s".toList).1 = .simple_fmt ∧
    (formatter_Reflectable.parse default "e".toList).1 = .extended_fmt ∧
    formatter_Reflectable.format dtext .simple_fmt t sink =
      formatter_Simple.format dtext t sink ∧
    formatter_Reflectable.format dtext .extended_fmt t sink =
      formatter_Extended.format dtext t sink ∧
    format_custom_arg dtext "s".toList t sink = formatter_Simple.format dtext t sink ∧
    format_custom_arg dtext "e".toList t sink = formatter_Extended.format dtext t sink ∧
    format_custom_arg dtext "s\x7d".toList t sink = formatter_Simple.format dtext t sink ∧
    format_custom_arg dtext "e\x7d".toList t sink = formatter_Extended.format dtext t sink := by
  refine ⟨rfl, rfl, ?_, ?_, ?_, ?_, ?_, ?_⟩
  · simp [formatter_Reflectable.format]
  · simp [formatter_Reflectable.format]
  · exact (custom_arg_s dtext t sink).1
  · exact (custom_arg_e dtext t sink).1
  · exact (custom_arg_s dtext t sink).2 []
  · exact (custom_arg_e dtext t sink).2 []

/-- C5: on a non-empty specifier text `parse` throws `format_error` exactly
when the first character is neither `s` nor `e`, or something other than `}`
follows it, and returns otherwise; `s{;}` (and `s{;}}`, the text after the
colon at line 178) is rejected, `s`, `e`, and `s}` before any text accepted. -/
theorem parse_rejects_iff :
    (∀ (self : underlying_formatter_type) (ctx : List Char), ctx ≠ [] →
      ((formatter_Reflectable.parse self ctx).2 = .error .format_error ↔
        ((ctx.head? ≠ some 's' ∧ ctx.head? ≠ some 'e') ∨
          (ctx.tail ≠ [] ∧ ctx.tail.head? ≠ some '}'))) ∧
      ((formatter_Reflectable.parse self ctx).2 = .error .format_error ∨
        (formatter_Reflectable.parse self ctx).2 = .ok 1)) ∧
    (formatter_Reflectable.parse default "s\x7b;\x7d".toList).2 = .error .format_error ∧
    (formatter_Reflectable.parse default "s\x7b;\x7d\x7d".toList).2 = .error .format_error ∧
    (formatter_Reflectable.parse default "s".toList).2 = .ok 1 ∧
    (formatter_Reflectable.parse default "e".toList).2 = .ok 1 ∧
    (∀ rest : List Char,
      (formatter_Reflectable.parse default ("s\x7d".toList ++ rest)).2 = .ok 1) := by
  refine ⟨?_, rfl, rfl, rfl, rfl, ?_⟩
  · intro self ctx hne
    cases ctx with
    | nil => exact absurd rfl hne
    | cons c rest =>
      by_cases hs : c = 's'
      · cases rest with
        | nil => simp [formatter_Reflectable.parse, hs]
        | cons d more =>
          by_cases hd : d = '}' <;> simp [formatter_Reflectable.parse, hs, hd]
      · by_cases he : c = 'e'
        · cases rest with
          | nil => simp [formatter_Reflectable.parse, he]
          | cons d more =>
            by_cases hd : d = '}' <;> simp [formatter_Reflectable.parse, he, hd]
        · simp [formatter_Reflectable.parse, hs, he]
  · intro rest
    simp [formatter_Reflectable.parse]

/-- Witness of C5 at the specifier text of line 178. -/
theorem parse_rejects_iff_witness :
    "s\x7b;\x7d".toList ≠ [] ∧
    (("s\x7b;\x7d".toList.head? ≠ some 's' ∧ "s\x7b;\x7d".toList.head? ≠ some 'e') ∨
      ("s\x7b;\x7d".toList.tail ≠ [] ∧ "s\x7b;\x7d".toList.tail.head? ≠ some '}')) ∧
    (formatter_Reflectable.parse default "s\x7b;\x7d".toList).2 = .error .format_error :=
  ⟨by decide, by decide,
    ((parse_rejects_iff.1 default "s\x7b;\x7d".toList (by decide)).1).2 (by decide)⟩

/-- C6: for every character other than `s` and `e` (the closing brace
included) used as the specifier, alone or with any text after it, the call
throws `format_error` and the sink is what it was before the call. -/
theorem unknown_selector_rejected (dtext : Double → String) (c : Char) (hs : c ≠ 's')
    (he : c ≠ 'e') (t : Object) (sink : String) :
    format_custom_arg dtext [c] t sink = .thrown .format_error sink ∧
    (∀ rest, format_custom_arg dtext (c :: rest) t sink = .thrown .format_error sink) ∧
    fmt_format dtext (String.singleton c) t = .error .format_error := by
  have key : ∀ rest s, format_custom_arg dtext (c :: rest) t s = .thrown .format_error s := by
    intro rest s
    simp [format_custom_arg, formatter_Reflectable.parse, hs, he]
  refine ⟨key [] sink, fun rest => key rest sink, ?_⟩
  have hl : (String.singleton c).toList = [c] := rfl
  simp [fmt_format, hl, key]

/-- Witness of C6 at the specifiers `x` and the closing brace. -/
theorem unknown_selector_rejected_witness :
    format_custom_arg driver_double_text ['x'] outer.toObject "" = .thrown .format_error "" ∧
    format_custom_arg driver_double_text ['}'] outer.toObject "kept" =
      .thrown .format_error "kept" ∧
    fmt_format driver_double_text (String.singleton 'x') outer.toObject = .error .format_error :=
  ⟨(unknown_selector_rejected driver_double_text 'x' (by decide) (by decide)
      outer.toObject "").1,
    (unknown_selector_rejected driver_double_text '}' (by decide) (by decide)
      outer.toObject "kept").1,
    (unknown_selector_rejected driver_double_text 'x' (by decide) (by decide)
      outer.toObject "").2.2⟩

/-- C7: the mode of the top-level call is the mode of the nested reflectable
field: the Simple output of an `Outer` is `a|b|` followed by the output of its
`Inner` rendered alone with `s`, and its Extended output wraps the output of
its `Inner` rendered alone with `e`. -/
theorem mode_reaches_nested_field (dtext : Double → String) (v : Outer) :
    ∃ simple_inner extended_inner : String,
      fmt_format dtext "s" v.inner.toObject = .ok simple_inner ∧
      fmt_format dtext "e" v.inner.toObject = .ok extended_inner ∧
      fmt_format dtext "s" v.toObject = .ok (v.a ++ "|" ++ v.b ++ "|" ++ simple_inner) ∧
      fmt_format dtext "e" v.toObject =
        .ok ("Outer\x7b.a=" ++ v.a ++ ", .b=" ++ v.b ++ ", .inner=" ++ extended_inner ++ "\x7d") := by
  refine ⟨_, _, render_s_Inner dtext v.inner, render_e_Inner dtext v.inner, ?_, ?_⟩
  · rw [render_s_Outer]
    simp [String.append_assoc]
  · have e1 : ", .inner=Inner\x7b.x=" = ", .inner=" ++ "Inner\x7b.x=" := by decide
    have e2 : "\x7d\x7d" = "\x7d" ++ "\x7d" := by decide
    rw [render_e_Outer, e1, e2]
    simp only [String.append_assoc]

/-- C8: for `Outer` and for `Inner` the values carried by `fields`, in order,
are `values`, both in declaration order, and the names of `fields` are the
declared field names in that order. -/
theorem fields_and_values_agree (o : Outer) (i : Inner) :
    (reflection_Outer.fields o).map (fun f => f.value) = reflection_Outer.values o ∧
    reflection_Outer.values o =
      [.primitive (.string o.a), .primitive (.string o.b), .object o.inner.toObject] ∧
    (reflection_Outer.fields o).map (fun f => f.name) = ["a", "b", "inner"] ∧
    (reflection_Inner.fields i).map (fun f => f.value) = reflection_Inner.values i ∧
    reflection_Inner.values i =
      [.primitive (.int i.x), .primitive (.double i.y), .primitive (.string i.z)] ∧
    (reflection_Inner.fields i).map (fun f => f.name) = ["x", "y", "z"] ∧
    reflection.fields o.toObject = reflection_Outer.fields o ∧
    reflection.values o.toObject = reflection_Outer.values o ∧
    reflection.fields i.toObject = reflection_Inner.fields i ∧
    reflection.values i.toObject = reflection_Inner.values i :=
  ⟨rfl, rfl, rfl, rfl, rfl, rfl, rfl, rfl, rfl, rfl⟩

/-- C9: an object of a reflectable type without fields is written as the empty
string with `s` and as its type name followed by `{}` with `e`. -/
theorem zero_field_type (dtext : Double → String) (name : String) :
    fmt_format dtext "s" (.mk name [] []) = .ok "" ∧
    fmt_format dtext "e" (.mk name [] []) = .ok (name ++ "\x7b\x7d") := by
  constructor
  · simp [fmt_format, (custom_arg_s dtext (.mk name [] []) "").1, formatter_Simple.format,
      join_values]
  · simp [fmt_format, (custom_arg_e dtext (.mk name [] []) "").1, formatter_Extended.format,
      join_fields, Outcome.andThen, String.append_assoc]

/-- C10, as the claim has it, fails: a closing brace in the string field `a`
of an `Outer` is written as it is, and the Extended output has two opening and
three closing braces. -/
theorem extended_unbalanced_with_brace_in_field :
    fmt_format driver_double_text "e" (Outer.toObject ⟨"\x7d", "b", ⟨1, y_3_14, "z"⟩⟩) =
      .ok "Outer\x7b.a=\x7d, .b=b, .inner=Inner\x7b.x=1, .y=3.14, .z=z\x7d\x7d" ∧
    ¬ balanced_braces "Outer\x7b.a=\x7d, .b=b, .inner=Inner\x7b.x=1, .y=3.14, .z=z\x7d\x7d" := by
  have hy : driver_double_text y_3_14 = "3.14" := by decide
  constructor
  · rw [render_e_Outer]
    simp [hy, int_text_one]
  · intro h
    exact absurd h.2 (by decide)

/-- C10, amended: when no type name, field name or string field of a
reflectable value, and no text the library writes for a double, contains a
brace, the Extended output has balanced braces (every prefix has at least as
many opening as closing braces, the whole text as many of each) and its
maximum nesting depth is the reflectable-field nesting depth of the value: 2
for every `Outer`, 1 for every `Inner`. -/
theorem extended_braces_balanced (dtext : Double → String) (hd : ∀ d, brace_free (dtext d)) :
    (∀ o : Object, o.plain →
      ∃ text : String, fmt_format dtext "e" o = .ok text ∧ balanced_braces text ∧
        max_nesting_depth text = o.depth) ∧
    (∀ v : Outer, brace_free v.a → brace_free v.b → brace_free v.inner.z →
      ∃ text : String, fmt_format dtext "e" v.toObject = .ok text ∧ balanced_braces text ∧
        max_nesting_depth text = 2) ∧
    (∀ v : Inner, brace_free v.z →
      ∃ text : String, fmt_format dtext "e" v.toObject = .ok text ∧ balanced_braces text ∧
        max_nesting_depth text = 1) := by
  refine ⟨render_e_plain dtext hd, fun v ha hb hz => ?_, fun v hz => ?_⟩
  · obtain ⟨hp, hdepth⟩ := outer_object_plain v ha hb hz
    rw [← hdepth]
    exact render_e_plain dtext hd _ hp
  · obtain ⟨hp, hdepth⟩ := inner_object_plain v hz
    rw [← hdepth]
    exact render_e_plain dtext hd _ hp

/-- Witness of C10 at the driver's value. -/
theorem extended_braces_balanced_witness :
    (∀ d, brace_free (driver_double_text d)) ∧
    brace_free outer.a ∧ brace_free outer.b ∧ brace_free outer.inner.z ∧
    ∃ text : String, fmt_format driver_double_text "e" outer.toObject = .ok text ∧
      balanced_braces text ∧ max_nesting_depth text = 2 :=
  ⟨driver_double_text_brace_free, by decide, by decide, by decide,
    (extended_braces_balanced driver_double_text driver_double_text_brace_free).2.1 outer
      (by decide) (by decide) (by decide)⟩

/-- C11, as the claim has it, fails: a string field is written as it is, so
the Simple output of an `Outer` whose field `a` is the text `Outer` followed
by an opening brace contains a brace and a type name. -/
theorem simple_output_with_brace_and_type_name :
    fmt_format driver_double_text "s" (Outer.toObject ⟨"Outer\x7b", "b", ⟨1, y_3_14, "z"⟩⟩) =
      .ok "Outer\x7b|b|1|3.14|z" ∧
    ¬ brace_free "Outer\x7b|b|1|3.14|z" ∧
    contains_type_name "Outer\x7b|b|1|3.14|z" := by
  have hy : driver_double_text y_3_14 = "3.14" := by decide
  refine ⟨?_, by decide, by decide⟩
  rw [render_s_Outer]
  simp [hy, int_text_one]

/-- C11, amended: when no string field of a reflectable value, at any depth
of `values`, and no text the library writes for a double, contains a brace or
a type name (`Outer`, `Inner`), the Simple output contains no brace and no
type name; so for every `Outer` and every `Inner` with such string fields. -/
theorem simple_output_clean (dtext : Double → String)
    (hd : ∀ d, without_brace_or_type_name (dtext d)) :
    (∀ o : Object, o.leaves_clean →
      ∃ text : String, fmt_format dtext "s" o = .ok text ∧ brace_free text ∧
        ¬ contains_type_name text) ∧
    (∀ v : Outer, without_brace_or_type_name v.a → without_brace_or_type_name v.b →
      without_brace_or_type_name v.inner.z →
      ∃ text : String, fmt_format dtext "s" v.toObject = .ok text ∧ brace_free text ∧
        ¬ contains_type_name text) ∧
    (∀ v : Inner, without_brace_or_type_name v.z →
      ∃ text : String, fmt_format dtext "s" v.toObject = .ok text ∧ brace_free text ∧
        ¬ contains_type_name text) := by
  refine ⟨render_s_clean dtext hd, ?_, ?_⟩
  · intro v ha hb hz
    exact ⟨_, render_s_Outer dtext v, simple_Outer_clean dtext hd v ha hb hz⟩
  · intro v hz
    exact ⟨_, render_s_Inner dtext v, simple_Inner_clean dtext hd v hz⟩

/-- Witness of C11 at the driver's value. -/
theorem simple_output_clean_witness :
    (∀ d, without_brace_or_type_name (driver_double_text d)) ∧
    without_brace_or_type_name outer.a ∧ without_brace_or_type_name outer.b ∧
    without_brace_or_type_name outer.inner.z ∧
    ∃ text : String, fmt_format driver_double_text "s" outer.toObject = .ok text ∧
      brace_free text ∧ ¬ contains_type_name text :=
  ⟨driver_double_text_clean, by decide, by decide, by decide,
    (simple_output_clean driver_double_text driver_double_text_clean).2.1 outer
      (by decide) (by decide) (by decide)⟩

/-- C12, as the claim has it, fails: the specifiers `s` and `e` followed by a
closing brace, with or without text after it, differ from `s` and `e` and are
accepted; the driver's value is rendered as with `s` and `e`. -/
theorem render_accepts_brace_after_mode :
    ("s\x7d" : String) ≠ "s" ∧ ("s\x7d" : String) ≠ "e" ∧
    fmt_format driver_double_text "s\x7d" outer.toObject = .ok "a|b|1|3.14|z" ∧
    ("e\x7dx" : String) ≠ "s" ∧ ("e\x7dx" : String) ≠ "e" ∧
    fmt_format driver_double_text "e\x7dx" outer.toObject =
      .ok "Outer\x7b.a=a, .b=b, .inner=Inner\x7b.x=1, .y=3.14, .z=z\x7d\x7d" := by
  have hy : driver_double_text y_3_14 = "3.14" := by decide
  refine ⟨by decide, by decide, ?_, by decide, by decide, ?_⟩
  · have h : fmt_format driver_double_text "s\x7d" outer.toObject =
        fmt_format driver_double_text "s" outer.toObject :=
      fmt_format_s_close driver_double_text outer.toObject []
    rw [h, render_s_Outer]
    simp [outer, hy, int_text_one]
  · have h : fmt_format driver_double_text "e\x7dx" outer.toObject =
        fmt_format driver_double_text "e" outer.toObject :=
      fmt_format_e_close driver_double_text outer.toObject ['x']
    rw [h, render_e_Outer]
    simp [outer, hy, int_text_one]

/-- C12, amended: at the render entry point a non-empty specifier is accepted
exactly when it is `s` or `e`, alone or followed by a closing brace and any
text, and is then rendered as `s` or `e` alone, which always return; every
other non-empty specifier (`se`, `S`) fails with `format_error`. -/
theorem render_accepted_iff (dtext : Double → String) (spec : String) (t : Object)
    (h : spec ≠ "") :
    (fmt_format dtext spec t = .error .format_error ↔
      ¬ (spec = "s" ∨ spec = "e" ∨ (∃ more : String, spec = "s\x7d" ++ more) ∨
        (∃ more : String, spec = "e\x7d" ++ more))) ∧
    ((spec = "s" ∨ ∃ more : String, spec = "s\x7d" ++ more) →
      fmt_format dtext spec t = fmt_format dtext "s" t) ∧
    ((spec = "e" ∨ ∃ more : String, spec = "e\x7d" ++ more) →
      fmt_format dtext spec t = fmt_format dtext "e" t) ∧
    (∃ text : String, fmt_format dtext "s" t = .ok text) ∧
    (∃ text : String, fmt_format dtext "e" t = .ok text) := by
  obtain ⟨ts, hs1, _, hs3⟩ := render_s_returns dtext t
  obtain ⟨te, he1, _, he3⟩ := render_e_returns dtext t
  have pre_s : ∀ more : String, ("s\x7d" ++ more : String) = ⟨'s' :: '}' :: more.toList⟩ :=
    fun more => String.ext (by simp)
  have pre_e : ∀ more : String, ("e\x7d" ++ more : String) = ⟨'e' :: '}' :: more.toList⟩ :=
    fun more => String.ext (by simp)
  refine ⟨?_, ?_, ?_, ⟨ts, hs1⟩, ⟨te, he1⟩⟩
  · obtain ⟨data⟩ := spec
    cases data with
    | nil => exact absurd rfl h
    | cons c rest =>
      rcases custom_arg_cons dtext c rest t "" with ⟨hc, hr, heq⟩ | ⟨hn, hthrow⟩
      · have hok : ∃ text, fmt_format dtext ⟨c :: rest⟩ t = .ok text := by
          rcases hc with hc | hc
          · rcases hr with hr | ⟨more, hr⟩
            · exact ⟨ts, by rw [hc, hr]; exact hs1⟩
            · exact ⟨ts, by rw [hc, hr]; exact hs3 more⟩
          · rcases hr with hr | ⟨more, hr⟩
            · exact ⟨te, by rw [hc, hr]; exact he1⟩
            · exact ⟨te, by rw [hc, hr]; exact he3 more⟩
        obtain ⟨text, hok⟩ := hok
        constructor
        · intro herr
          rw [hok] at herr
          cases herr
        · intro hnot
          exfalso
          apply hnot
          rcases hc with hc | hc
          · rcases hr with hr | ⟨more, hr⟩
            · exact Or.inl (by rw [hc, hr])
            · exact Or.inr (Or.inr (Or.inl ⟨⟨more⟩, by rw [hc, hr, pre_s]; rfl⟩))
          · rcases hr with hr | ⟨more, hr⟩
            · exact Or.inr (Or.inl (by rw [hc, hr]))
            · exact Or.inr (Or.inr (Or.inr ⟨⟨more⟩, by rw [hc, hr, pre_e]; rfl⟩))
      · constructor
        · intro _ hacc
          apply hn
          rcases hacc with e | e | ⟨more, e⟩ | ⟨more, e⟩
          · have := congrArg String.data e
            simp at this
            exact ⟨Or.inl this.1, Or.inl this.2⟩
          · have := congrArg String.data e
            simp at this
            exact ⟨Or.inr this.1, Or.inl this.2⟩
          · rw [pre_s] at e
            have := congrArg String.data e
            simp at this
            exact ⟨Or.inl this.1, Or.inr ⟨more.toList, this.2⟩⟩
          · rw [pre_e] at e
            have := congrArg String.data e
            simp at this
            exact ⟨Or.inr this.1, Or.inr ⟨more.toList, this.2⟩⟩
        · intro _
          simp [fmt_format, hthrow]
  · rintro (e | ⟨more, e⟩)
    · rw [e]
    · rw [e, pre_s, hs3, hs1]
  · rintro (e | ⟨more, e⟩)
    · rw [e]
    · rw [e, pre_e, he3, he1]

/-- Witness of C12 at the specifiers `se` and `S`. -/
theorem render_accepted_iff_witness :
    ("se" : String) ≠ "" ∧ ("S" : String) ≠ "" ∧
    fmt_format driver_double_text "se" outer.toObject = .error .format_error ∧
    fmt_format driver_double_text "S" outer.toObject = .error .format_error :=
  ⟨by decide, by decide,
    (render_accepted_iff driver_double_text "se" outer.toObject (by decide)).1.2 (by
      rintro (e | e | ⟨more, e⟩ | ⟨more, e⟩)
      · exact absurd e (by decide)
      · exact absurd e (by decide)
      · have := congrArg String.data e
        simp at this
      · have := congrArg String.data e
        simp at this),
    (render_accepted_iff driver_double_text "S" outer.toObject (by decide)).1.2 (by
      rintro (e | e | ⟨more, e⟩ | ⟨more, e⟩)
      · exact absurd e (by decide)
      · exact absurd e (by decide)
      · have := congrArg String.data e
        simp at this
      · have := congrArg String.data e
        simp at this)⟩

/-- C13: when `parse` returns, the position it returns is one past the start
of the specifier: the first character is `s` or `e`, and what follows it, a
closing brace and anything after, or nothing, is left unconsumed. -/
theorem parse_consumes_one (self : underlying_formatter_type) (ctx : List Char) (n : Nat)
    (h : (formatter_Reflectable.parse self ctx).2 = .ok n) :
    n = 1 ∧ (ctx.take n = ['s'] ∨ ctx.take n = ['e']) ∧
      (ctx.drop n = [] ∨ ∃ more, ctx.drop n = '}' :: more) := by
  cases ctx with
  | nil => simp [formatter_Reflectable.parse] at h
  | cons c rest =>
    by_cases hs : c = 's'
    · cases rest with
      | nil =>
        simp [formatter_Reflectable.parse, hs] at h
        subst h
        simp [hs]
      | cons d more =>
        by_cases hd : d = '}'
        · simp [formatter_Reflectable.parse, hs, hd] at h
          subst h
          simp [hs, hd]
        · simp [formatter_Reflectable.parse, hs, hd] at h
    · by_cases he : c = 'e'
      · cases rest with
        | nil =>
          simp [formatter_Reflectable.parse, he] at h
          subst h
          simp [he]
        | cons d more =>
          by_cases hd : d = '}'
          · simp [formatter_Reflectable.parse, he, hd] at h
            subst h
            simp [he, hd]
          · simp [formatter_Reflectable.parse, he, hd] at h
      · simp [formatter_Reflectable.parse, hs, he] at h

/-- Witness of C13 at the specifier `s` followed by a closing brace and `x`. -/
theorem parse_consumes_one_witness :
    (formatter_Reflectable.parse default ['s', '}', 'x']).2 = .ok 1 ∧
    (1 = 1 ∧ (List.take 1 ['s', '}', 'x'] = ['s'] ∨ List.take 1 ['s', '}', 'x'] = ['e']) ∧
      (List.drop 1 ['s', '}', 'x'] = [] ∨ ∃ more, List.drop 1 ['s', '}', 'x'] = '}' :: more)) :=
  ⟨rfl, parse_consumes_one default ['s', '}', 'x'] 1 rfl⟩

/-- C14: a dispatcher on which `parse` was not called holds `simple_fmt`, and
its `format`, which is how the value join of the Simple formatter writes a
nested reflectable element, is the Simple formatter's on every object. -/
theorem unparsed_dispatcher_is_simple (dtext : Double → String) (t : Object) (sink : String) :
    (default : underlying_formatter_type) = .simple_fmt ∧
    formatter_Reflectable.format dtext default t sink = formatter_Simple.format dtext t sink ∧
    format_default dtext (.object t) sink = formatter_Simple.format dtext t sink := by
  refine ⟨rfl, ?_, ?_⟩
  · simp [formatter_Reflectable.format, default_underlying_formatter]
  · simp [format_default, formatter_Reflectable.format, default_underlying_formatter]

/-- C15, the code at the empty specifier: `parse` evaluates `*it` with
`it == end` (line 139 has no `it != end` guard, line 150 has), so it reads
outside the specifier instead of throwing `format_error`; the member is left
as it was and nothing is written. -/
theorem parse_empty_reads_at_end (dtext : Double → String)
    (self : underlying_formatter_type) (t : Object) (sink : String) :
    formatter_Reflectable.parse self [] = (self, .error .read_at_end) ∧
    (formatter_Reflectable.parse self []).2 ≠ .error .format_error ∧
    format_custom_arg dtext [] t sink = .thrown .read_at_end sink := by
  refine ⟨rfl, ?_, ?_⟩
  · intro h
    simp [formatter_Reflectable.parse] at h
  · simp [format_custom_arg, formatter_Reflectable.parse]

/-- C16: the Simple output does not determine the value, since a delimiter
inside a string field is written as it is: the two distinct `Outer` values
with `a = x|y, b = z` and `a = x, b = y|z` and the same `inner` have the same
Simple output. -/
theorem simple_not_injective (dtext : Double → String) (inner : Inner) :
    (⟨"x|y", "z", inner⟩ : Outer) ≠ ⟨"x", "y|z", inner⟩ ∧
    fmt_format dtext "s" (Outer.toObject ⟨"x|y", "z", inner⟩) =
      fmt_format dtext "s" (Outer.toObject ⟨"x", "y|z", inner⟩) ∧
    fmt_format dtext "s" (Outer.toObject ⟨"x|y", "z", inner⟩) =
      .ok ("x|y|z|" ++ int_text inner.x ++ "|" ++ dtext inner.y ++ "|" ++ inner.z) := by
  refine ⟨?_, ?_, ?_⟩
  · intro h
    injection h with ha
    exact absurd ha (by decide)
  · rw [render_s_Outer, render_s_Outer]
    simp [String.append_assoc]
  · rw [render_s_Outer]
    simp [String.append_assoc]

end FmtReflect
